import Mathlib

/-!
Verification of the dbperf worker-pool dispatcher (controller.go, generator.go).

The Go program drives a stream of queries against a database using a fixed
pool of workers with sticky key-based routing, and reduces the elapsed times
of the completed queries to summary statistics.  The embedding below is a
shallow one:

* machine integers (Go int, int64, time.Duration in nanoseconds) are
  modelled as Lean Int; division is Int.tdiv (Go division truncates toward
  zero).  Overflow of int64 is not modelled: the claims under study concern
  counts and durations far below the int64 range, and theorems that need
  in-range values carry explicit bounds as hypotheses;
* the concurrent run (controller.go RunTest) is modelled as a deterministic
  dataflow over an explicit delivery schedule: the list of completion
  results, in the order in which the dispatcher receives them on the shared
  completion channel, is a parameter of the model.  Worker goroutine
  interleavings are quantified over by quantifying over that schedule;
* a run that blocks forever (no completion ever arrives and the context is
  never cancelled; the model takes context.Background, whose Done channel
  never fires) is the RunOut.hangs outcome, and a Go runtime panic
  (division by zero in calculateStats) is RunOut.panics / Option.none.
-/

/-- Model of the Query struct of generator.go: the SQL text, its arguments
and the internal routing key. -/
structure Query where
  key : String
  query : String
  args : List String
deriving DecidableEq, Repr

/-- Model of the result struct of controller.go: elapsed time of one
executed query (nanoseconds) and an optional error. -/
structure result where
  elapsed : Int
  err : Option String
deriving DecidableEq, Repr

/-- Model of the QueryStats struct of controller.go.  All durations are in
nanoseconds, as Go time.Duration is. -/
structure QueryStats where
  Processed : Int
  TotalElapsed : Int
  Min : Int
  Max : Int
  Avg : Int
  Median : Int
deriving DecidableEq, Repr

/-- Largest int64 value, math.MaxInt64, the initial value of Min in
calculateStats. -/
def maxInt64 : Int := 2 ^ 63 - 1

/-- Smallest int64 value, math.MinInt64, the initial value of Max in
calculateStats. -/
def minInt64 : Int := -(2 ^ 63)

/-- Model of calculateStats of controller.go.  The slice is sorted in place
(sort.Slice with a strict less-than comparator produces an ascending
permutation; for integer values that list is unique, here computed by
insertionSort), then Min, Max and TotalElapsed are accumulated by one pass
over the sorted slice, Avg divides the total by the count, and the median
is taken from the middle of the sorted slice (the Go code decrements n in
the even branch and indexes with n/2 and n/2+1).  The Go code divides by
the count n with no guard: on an empty slice it panics with a division by
zero, which this model returns as none. -/
def calculateStats (results : List Int) : Option QueryStats :=
  let sorted := List.insertionSort (fun a b => a ≤ b) results
  let n := sorted.length
  if n = 0 then
    none
  else
    let mn := sorted.foldl (fun acc v => if v < acc then v else acc) maxInt64
    let mx := sorted.foldl (fun acc v => if acc < v then v else acc) minInt64
    let total := sorted.foldl (fun acc v => acc + v) 0
    let avg := Int.tdiv total (n : Int)
    let median :=
      if n % 2 = 0 then
        Int.tdiv (sorted.getD ((n - 1) / 2) 0 + sorted.getD ((n - 1) / 2 + 1) 0) 2
      else
        sorted.getD (n / 2) 0
    some ⟨(n : Int), total, mn, mx, avg, median⟩

/-- Model of the Controller struct of controller.go.  Workers are
identified by their index in the workers slice (initPool gives worker i the
id i), so the pool is represented by its size, and byKey maps routing keys
to worker ids.  The Go map is written at most once per key (getWorker
inserts only when the key is absent), so an association list with
insertion at the head is an exact model. -/
structure Controller where
  poolSize : Nat
  byKey : List (String × Nat)
  nextWorker : Nat
deriving DecidableEq, Repr

/-- Model of NewController of controller.go: a non-positive pool size is
replaced by 1. -/
def NewController (poolSize : Int) : Controller :=
  { poolSize := if poolSize ≤ 0 then 1 else poolSize.toNat
    byKey := []
    nextWorker := 0 }

/-- Lookup in the byKey routing table. -/
def lookupKey (m : List (String × Nat)) (k : String) : Option Nat :=
  match m with
  | [] => none
  | (k2, w) :: rest => if k2 = k then some w else lookupKey rest k

/-- Model of Controller.getWorker of controller.go: return the worker
already pinned to the key of the query, and otherwise assign the worker at
the round-robin cursor, advance the cursor modulo the pool size, and record
the new pinning. -/
def getWorker (c : Controller) (q : Query) : Nat × Controller :=
  match lookupKey c.byKey q.key with
  | some w => (w, c)
  | none =>
    let w := c.nextWorker
    (w, { c with
            nextWorker := (c.nextWorker + 1) % c.poolSize
            byKey := (q.key, w) :: c.byKey })

/-- Route a list of queries through getWorker, threading the controller
state, and drop the assigned workers. -/
def routeAll (c : Controller) (qs : List Query) : Controller :=
  match qs with
  | [] => c
  | q :: rest => routeAll (getWorker c q).2 rest

/-- Route a list of routing keys through getWorker, threading the
controller state, and collect the assigned worker of every key in order. -/
def assignWorkers (c : Controller) (keys : List String) : List Nat :=
  match keys with
  | [] => []
  | k :: rest =>
    let p := getWorker c { key := k, query := "", args := [] }
    p.1 :: assignWorkers p.2 rest

/-- Model of Controller.initPool of controller.go: the loop creates one
worker per pool slot, giving worker i the id i; the model returns the list
of created worker ids. -/
def initPool (c : Controller) : List Nat :=
  List.range c.poolSize

/-- Output of the query generator: Next returns either a query, or io.EOF
once the source is exhausted (the exhaustion of the list below), or a
failure.  GenItem.fail models a non-EOF error from Next. -/
inductive GenItem where
  | ok (q : Query)
  | fail (e : String)
deriving DecidableEq, Repr

/-- Model of Controller.seedWorkers of controller.go.  seeded starts at -1
and is raised to the largest worker id seen so far; the loop runs while
seeded < len(workers), pulling one query from the generator per iteration,
routing it and enqueuing it on the routed worker.  The model returns the
final controller, the (worker, query) pairs enqueued in order, and the
unconsumed remainder of the generator. -/
def seedWorkers (c : Controller) (seeded : Int) (gen : List GenItem) :
    Except String (Controller × List (Nat × Query) × List GenItem) :=
  match gen with
  | [] =>
    .ok (c, [], [])
  | item :: rest =>
    if seeded < (c.poolSize : Int) then
      match item with
      | .fail e => .error e
      | .ok q =>
        let p := getWorker c q
        let seeded2 := if (p.1 : Int) > seeded then (p.1 : Int) else seeded
        match seedWorkers p.2 seeded2 rest with
        | .error e => .error e
        | .ok (c3, enq, remaining) => .ok (c3, (p.1, q) :: enq, remaining)
    else
      .ok (c, [], item :: rest)

/-- Observable event of a run: a query enqueued on a worker queue, or a
completion result received by the dispatcher from the completion
channel. -/
inductive Event where
  | enqueue (w : Nat) (q : Query)
  | complete (r : result)
deriving DecidableEq, Repr

/-- Outcome of the main admission loop of RunTest. -/
inductive LoopOut where
  | blocked (trace : List Event)
  | failed (e : String) (trace : List Event)
  | finished (recorded : List Int) (remaining : List result) (trace : List Event)
deriving DecidableEq, Repr

/-- Model of the main admission loop of Controller.RunTest (the outer loop
of controller.go).  delivered is the schedule: completion results in the
order the dispatcher receives them.  One result is received per iteration;
an erroneous result aborts the run at once, a successful result is
recorded and one further query is pulled from the generator: io.EOF leaves
the loop (the unreceived remainder of the schedule is handed to the
drain), a generator failure aborts the run, and a query is routed and
enqueued.  An empty schedule while the loop still waits models the
dispatcher blocking forever on the completion channel (the context is
context.Background, so the ctx.Done branch of the select never fires). -/
def mainLoop (c : Controller) (gen : List GenItem) (delivered : List result) :
    LoopOut :=
  match delivered with
  | [] => .blocked []
  | r :: rest =>
    match r.err with
    | some e => .failed e [.complete r]
    | none =>
      match gen with
      | [] => .finished [r.elapsed] rest [.complete r]
      | .fail e :: _ => .failed e [.complete r]
      | .ok q :: gen2 =>
        let p := getWorker c q
        match mainLoop p.2 gen2 rest with
        | .blocked t => .blocked (.complete r :: .enqueue p.1 q :: t)
        | .failed e t => .failed e (.complete r :: .enqueue p.1 q :: t)
        | .finished acc rem t =>
          .finished (r.elapsed :: acc) rem (.complete r :: .enqueue p.1 q :: t)

/-- Model of the drain loop of Controller.RunTest: after the workers have
exited and the completion channel is closed, every buffered result is
received in order; the first erroneous one aborts the run, and otherwise
the elapsed times are appended to the recorded results. -/
def drainOutcome (remaining : List result) : Except String (List Int) :=
  match remaining with
  | [] => .ok []
  | r :: rest =>
    match r.err with
    | some e => .error e
    | none =>
      match drainOutcome rest with
      | .error e => .error e
      | .ok l => .ok (r.elapsed :: l)

/-- Trace of the drain loop: the completions received before it stops,
which is all of them unless an erroneous one is hit first. -/
def drainTrace (remaining : List result) : List Event :=
  match remaining with
  | [] => []
  | r :: rest =>
    match r.err with
    | some _ => [.complete r]
    | none => .complete r :: drainTrace rest

/-- Outcome of a whole run of Controller.RunTest: the run blocks forever,
panics, returns (nil, error), or returns (stats, nil). -/
inductive RunOut where
  | hangs
  | panics
  | fails (e : String)
  | succeeds (s : QueryStats)
deriving DecidableEq, Repr

/-- Model of Controller.RunTest of controller.go: seed the workers, run the
main admission loop over the delivery schedule, then (on the normal exit
path) close the worker queues and drain the remaining completion results,
and hand the recorded elapsed times to calculateStats.  The second
component is the trace of enqueue and completion events of the run. -/
def RunTest (c : Controller) (gen : List GenItem) (delivered : List result) :
    RunOut × List Event :=
  match seedWorkers c (-1) gen with
  | .error e => (.fails e, [])
  | .ok (c2, enq, gen2) =>
    let seedTrace := enq.map (fun p => Event.enqueue p.1 p.2)
    match mainLoop c2 gen2 delivered with
    | .blocked t => (.hangs, seedTrace ++ t)
    | .failed e t => (.fails e, seedTrace ++ t)
    | .finished acc rem t =>
      match drainOutcome rem with
      | .error e => (.fails e, seedTrace ++ t ++ drainTrace rem)
      | .ok l =>
        match calculateStats (acc ++ l) with
        | none => (.panics, seedTrace ++ t ++ drainTrace rem)
        | some s => (.succeeds s, seedTrace ++ t ++ drainTrace rem)

/-- First error carried by a result in a delivery schedule. -/
def firstErr (rs : List result) : Option String :=
  match rs with
  | [] => none
  | r :: rest =>
    match r.err with
    | some e => some e
    | none => firstErr rest

/-- Test whether an event is an enqueue of a query on a worker. -/
def isEnqueueEvent (e : Event) : Bool :=
  match e with
  | .enqueue _ _ => true
  | .complete _ => false

/-- Test whether an event is harmless for the abort property: an enqueue,
or the completion of a successful result. -/
def cleanEvent (e : Event) : Bool :=
  match e with
  | .enqueue _ _ => true
  | .complete r => r.err.isNone

/-- No query is enqueued on any worker after a completion carrying an
error has been received. -/
def noEnqueueAfterFailure (es : List Event) : Bool :=
  match es with
  | [] => true
  | .enqueue _ _ :: rest => noEnqueueAfterFailure rest
  | .complete r :: rest =>
    match r.err with
    | some _ => rest.all (fun e => !(isEnqueueEvent e))
    | none => noEnqueueAfterFailure rest

/-- Operations of the Queryable interface of controller.go, applied to a
statement and its arguments.  These are the four capabilities of the
database handle a worker could call. -/
inductive DbCall where
  | QueryContext (query : String) (args : List String)
  | PrepareContext (query : String)
  | QueryRowContext (query : String) (args : List String)
  | ExecContext (query : String) (args : List String)
deriving DecidableEq, Repr

/-- Model of the database call the execution loop of worker.run in
controller.go performs for one query taken from its queue: the loop body
calls w.db.QueryContext(ctx, q.Query, q.Args...) and no other Queryable
method. -/
def workerDbCall (q : Query) : DbCall :=
  DbCall.QueryContext q.query q.args

/-- Errors of the record reader: io.EOF at the end of the input, or
csv.ErrFieldCount when a record has a number of fields different from the
first record read. -/
inductive ReadErr where
  | eof
  | errFieldCount
deriving DecidableEq, Repr

/-- Model of encoding/csv Reader as configured by csv.NewReader: the input
is taken at the level of already-lexed records, and FieldsPerRecord starts
unset (Go zero value), so the first record read fixes the expected field
count and every later record with a different count is rejected with
ErrFieldCount. -/
structure csvReader where
  records : List (List String)
  fieldsPerRecord : Option Nat
deriving DecidableEq, Repr

/-- Read of the csv reader model: pop the next record, enforcing the
field-count rule described above. -/
def csvReader.read (rd : csvReader) : Except ReadErr (List String × csvReader) :=
  match rd.records with
  | [] => .error .eof
  | rec :: rest =>
    match rd.fieldsPerRecord with
    | none => .ok (rec, ⟨rest, some rec.length⟩)
    | some k =>
      if rec.length = k then .ok (rec, ⟨rest, some k⟩)
      else .error .errFieldCount

/-- Errors of cpuTestGenerator.Next of generator.go: io.EOF, a csv reader
error, or the invalid-query-specification error built with fmt.Errorf on a
record that fails validation. -/
inductive GenError where
  | eof
  | errFieldCount
  | invalidQuerySpec (records : List String)
deriving DecidableEq, Repr

/-- Inject a csv reader error into the generator error type. -/
def liftReadErr (e : ReadErr) : GenError :=
  match e with
  | .eof => .eof
  | .errFieldCount => .errFieldCount

/-- Model of the cpuTestQuery constant of generator.go (apostrophes written
with escapes). -/
def cpuTestQuery : String :=
  "SELECT date_trunc(\x27minute\x27, ts) AS minute, MIN(usage), MAX(usage) from cpu_usage \n\tWHERE host = $1\n    AND ts BETWEEN $2 AND $3\n    GROUP BY date_trunc(\x27minute\x27, ts);"

/-- Decimal digit test on a character. -/
def isDigit (c : Char) : Bool :=
  ('0' ≤ c) && (c ≤ '9')

/-- Numeric value of a decimal digit character. -/
def digitVal (c : Char) : Nat :=
  c.toNat - Char.toNat '0'

/-- Two-digit decimal number from two characters. -/
def num2 (a b : Char) : Nat :=
  10 * digitVal a + digitVal b

/-- Four-digit decimal number from four characters. -/
def num4 (a b c d : Char) : Nat :=
  1000 * digitVal a + 100 * digitVal b + 10 * digitVal c + digitVal d

/-- Leap-year rule of the proleptic Gregorian calendar, as used by package
time of Go. -/
def isLeapYear (y : Nat) : Bool :=
  (y % 4 = 0 && !(y % 100 = 0)) || (y % 400 = 0)

/-- Number of days of a month, as validated by time.Parse of Go. -/
def daysInMonth (y m : Nat) : Nat :=
  if m = 2 then (if isLeapYear y then 29 else 28)
  else if m = 4 || m = 6 || m = 9 || m = 11 then 30
  else 31

/-- Model of getnum of Go package time: with fixed true it requires
exactly two digits, with fixed false it takes one digit, or two when the
next character is also a digit.  Returns the numeric value and the
unconsumed remainder, or none where Go returns errBad. -/
def getnum (s : List Char) (fixed : Bool) : Option (Nat × List Char) :=
  match s with
  | [] => none
  | [c1] =>
    if isDigit c1 then
      (if fixed then none else some (digitVal c1, []))
    else none
  | c1 :: c2 :: rest =>
    if isDigit c1 then
      if isDigit c2 then some (num2 c1 c2, rest)
      else if fixed then none
      else some (digitVal c1, c2 :: rest)
    else none

/-- Model of the stdLongYear case of time.Parse: the year field takes
exactly the next four characters, which must all be digits (the first is
checked by isDigit and the others by atoi). -/
def getnum4 (s : List Char) : Option (Nat × List Char) :=
  match s with
  | c1 :: c2 :: c3 :: c4 :: rest =>
    if isDigit c1 && isDigit c2 && isDigit c3 && isDigit c4 then
      some (num4 c1 c2 c3 c4, rest)
    else none
  | _ => none

/-- Literal separator of the layout: the next input character must be
exactly it. -/
def expectChar (s : List Char) (c : Char) : Option (List Char) :=
  match s with
  | c2 :: rest => if c2 = c then some rest else none
  | [] => none

/-- Trailing input accepted after the seconds field by time.Parse even
though the layout has no fractional second: either nothing, or a period
or comma followed by one or more digits, all of which are consumed (only
the first nine digits are significant for the nanosecond value, so the
digit run imposes no further constraint).  Anything else is the
extra-text parse error. -/
def fractionOk (s : List Char) : Bool :=
  match s with
  | [] => true
  | c0 :: c :: rest =>
    (c0 = '.' || c0 = ',') && isDigit c && (c :: rest).all isDigit
  | _ => false

/-- Field parse of the layout 2006-01-02 15:04:05 as time.Parse walks it:
a four-digit year, literal dash, zero-padded two-digit month, literal
dash, zero-padded two-digit day, literal space, an hour of one or two
digits (stdHour is parsed with getnum fixed=false, unlike the zero-padded
fields), literal colon, two-digit minute, literal colon, two-digit
second.  Returns the six values and the unconsumed remainder. -/
def parseDateTimeFields (s : List Char) :
    Option (Nat × Nat × Nat × Nat × Nat × Nat × List Char) := do
  let (year, s) ← getnum4 s
  let s ← expectChar s '-'
  let (month, s) ← getnum s true
  let s ← expectChar s '-'
  let (day, s) ← getnum s true
  let s ← expectChar s ' '
  let (hour, s) ← getnum s false
  let s ← expectChar s ':'
  let (minute, s) ← getnum s true
  let s ← expectChar s ':'
  let (second, s) ← getnum s true
  return (year, month, day, hour, minute, second, s)

/-- Model of isValidDateTime of generator.go, which runs time.Parse with
the layout 2006-01-02 15:04:05 and reports success.  Parsing succeeds
when the fields of the layout parse as in parseDateTimeFields (the hour
accepting one or two digits), what remains after the seconds is an
acceptable fractional tail (fractionOk), and the range checks of Parse
hold: month 1 to 12, hour at most 23, minute and second at most 59, and
the day against the length of the month with Gregorian leap years. -/
def isValidDateTime (s : String) : Bool :=
  match parseDateTimeFields s.data with
  | none => false
  | some (year, month, day, hour, minute, second, rest) =>
    1 ≤ month && month ≤ 12 &&
    hour ≤ 23 && minute ≤ 59 && second ≤ 59 &&
    1 ≤ day && day ≤ daysInMonth year month &&
    fractionOk rest

/-- Model of the cpuTestGenerator struct of generator.go. -/
structure cpuTestGenerator where
  reader : csvReader
  headerRead : Bool
deriving DecidableEq, Repr

/-- Model of NewCPUTestGenerator of generator.go over an input already
split into csv records. -/
def NewCPUTestGenerator (records : List (List String)) : cpuTestGenerator :=
  { reader := { records := records, fieldsPerRecord := none }, headerRead := false }

/-- Header-skipping step of cpuTestGenerator.Next: on the first call the
first record is read and discarded with no validation of its content (any
reader error, io.EOF included, is returned as is). -/
def readHeader (g : cpuTestGenerator) : Except GenError cpuTestGenerator :=
  if g.headerRead then .ok g
  else
    match g.reader.read with
    | .error e => .error (liftReadErr e)
    | .ok (_, rd) => .ok { reader := rd, headerRead := true }

/-- Model of cpuTestGenerator.Next of generator.go: skip the header on the
first call, read the next record, reject it unless it has exactly 3 fields
with the second and third a valid datetime, and otherwise build the query
with the first field as the routing key and the whole record as the
arguments. -/
def cpuTestGenerator.Next (g : cpuTestGenerator) :
    Except GenError (Query × cpuTestGenerator) :=
  match readHeader g with
  | .error e => .error e
  | .ok g1 =>
    match g1.reader.read with
    | .error e => .error (liftReadErr e)
    | .ok (records, rd) =>
      let g2 : cpuTestGenerator := { reader := rd, headerRead := true }
      if records.length ≠ 3 ∨ ¬ isValidDateTime (records.getD 1 "")
          ∨ ¬ isValidDateTime (records.getD 2 "") then
        .error (.invalidQuerySpec records)
      else
        .ok ({ key := records.getD 0 "", query := cpuTestQuery, args := records }, g2)

/-- Well-formedness of a controller state: the pool is non-empty, the
round-robin cursor is in range, and every recorded worker id is in range.
NewController establishes it and getWorker preserves it. -/
def Controller.WF (c : Controller) : Prop :=
  0 < c.poolSize ∧ c.nextWorker < c.poolSize ∧ ∀ p ∈ c.byKey, p.2 < c.poolSize

instance (c : Controller) : Decidable c.WF := by
  unfold Controller.WF
  infer_instance

theorem lookupKey_getWorker (c : Controller) (q : Query) (k : String) (w : Nat)
    (h : lookupKey c.byKey k = some w) :
    lookupKey ((getWorker c q).2).byKey k = some w := by
  unfold getWorker
  cases hq : lookupKey c.byKey q.key with
  | some w2 => simpa using h
  | none =>
    simp only [lookupKey]
    by_cases hk : q.key = k
    · subst hk
      rw [hq] at h
      exact absurd h (by simp)
    · simpa [hk] using h

theorem lookupKey_routeAll (c : Controller) (qs : List Query) (k : String) (w : Nat)
    (h : lookupKey c.byKey k = some w) :
    lookupKey (routeAll c qs).byKey k = some w := by
  induction qs generalizing c with
  | nil => simpa [routeAll] using h
  | cons q rest ih =>
    simp only [routeAll]
    exact ih _ (lookupKey_getWorker c q k w h)

theorem getWorker_of_lookupKey (c : Controller) (q : Query) (w : Nat)
    (h : lookupKey c.byKey q.key = some w) :
    getWorker c q = (w, c) := by
  unfold getWorker
  rw [h]

theorem lookupKey_after_getWorker (c : Controller) (q : Query) :
    lookupKey ((getWorker c q).2).byKey q.key = some (getWorker c q).1 := by
  unfold getWorker
  cases hq : lookupKey c.byKey q.key with
  | some w => simpa using hq
  | none => simp [lookupKey]

/-- C1: once a routing key has been assigned a worker by getWorker, every
later lookup of that key, after any further sequence of getWorker calls,
finds the same worker in the byKey table, and getWorker on any query with
that key returns that worker: the key-to-worker binding is never
overwritten or cleared for the rest of the run. -/
theorem C1_sticky_routing (c : Controller) (q q2 : Query) (qs : List Query)
    (hk : q2.key = q.key) :
    lookupKey (routeAll (getWorker c q).2 qs).byKey q.key = some (getWorker c q).1 ∧
    (getWorker (routeAll (getWorker c q).2 qs) q2).1 = (getWorker c q).1 := by
  have h1 := lookupKey_after_getWorker c q
  have h2 := lookupKey_routeAll _ qs _ _ h1
  refine ⟨h2, ?_⟩
  have h3 := getWorker_of_lookupKey (routeAll (getWorker c q).2 qs) q2
    (getWorker c q).1 (by rw [hk]; exact h2)
  rw [h3]

/-- Witness for C1 at a concrete run: key a is assigned by getWorker on a
fresh two-worker controller and stays bound to that worker after routing
keys b and a again. -/
theorem C1_sticky_routing_witness :
    lookupKey (routeAll (getWorker (NewController 2) ⟨"a", "", []⟩).2
        [⟨"b", "", []⟩, ⟨"a", "", []⟩]).byKey "a"
      = some (getWorker (NewController 2) ⟨"a", "", []⟩).1 ∧
    (getWorker (routeAll (getWorker (NewController 2) ⟨"a", "", []⟩).2
        [⟨"b", "", []⟩, ⟨"a", "", []⟩]) ⟨"a", "x", ["y"]⟩).1
      = (getWorker (NewController 2) ⟨"a", "", []⟩).1 :=
  C1_sticky_routing (NewController 2) ⟨"a", "", []⟩ ⟨"a", "x", ["y"]⟩
    [⟨"b", "", []⟩, ⟨"a", "", []⟩] rfl

/-- C2: a first-time routing key is assigned the worker at the round-robin
cursor and the cursor advances by one modulo the pool size; consequently
the key sequence h8,h1,h8,h2,h3,h2,h8,h0,h5,h6 over a pool of 4 assigns 4
items to worker 0, 2 to worker 1, 3 to worker 2 and 1 to worker 3. -/
theorem C2_round_robin_assignment :
    (∀ (c : Controller) (q : Query), lookupKey c.byKey q.key = none →
      getWorker c q =
        (c.nextWorker,
         { poolSize := c.poolSize
           byKey := (q.key, c.nextWorker) :: c.byKey
           nextWorker := (c.nextWorker + 1) % c.poolSize })) ∧
    ((assignWorkers (NewController 4)
        ["h8", "h1", "h8", "h2", "h3", "h2", "h8", "h0", "h5", "h6"]).count 0 = 4 ∧
     (assignWorkers (NewController 4)
        ["h8", "h1", "h8", "h2", "h3", "h2", "h8", "h0", "h5", "h6"]).count 1 = 2 ∧
     (assignWorkers (NewController 4)
        ["h8", "h1", "h8", "h2", "h3", "h2", "h8", "h0", "h5", "h6"]).count 2 = 3 ∧
     (assignWorkers (NewController 4)
        ["h8", "h1", "h8", "h2", "h3", "h2", "h8", "h0", "h5", "h6"]).count 3 = 1) := by
  constructor
  · intro c q h
    simp [getWorker, h]
  · decide

/-- Witness for C2: the first key of the scenario is absent from the fresh
table and is assigned worker 0, the round-robin cursor of the fresh
4-worker controller. -/
theorem C2_round_robin_assignment_witness :
    getWorker (NewController 4) ⟨"h8", "", []⟩ =
      ((NewController 4).nextWorker,
       { poolSize := (NewController 4).poolSize
         byKey := ("h8", (NewController 4).nextWorker) :: (NewController 4).byKey
         nextWorker := ((NewController 4).nextWorker + 1) % (NewController 4).poolSize }) :=
  C2_round_robin_assignment.1 (NewController 4) ⟨"h8", "", []⟩ rfl

/-- C6: evaluation of the seeding loop at a pool of one worker and a
two-item source.  The spec says seeding stops as soon as every worker has
received one item, leaving the second item unconsumed; the code consumes
both items and leaves nothing in the source, because the loop condition
seeded < len(workers) is still true when every worker id (at most
poolSize - 1) has been seen, so the loop only ever exits on EOF or on a
generator error, as this evaluation exhibits. -/
theorem C6_seed_consumes_entire_source :
    seedWorkers (NewController 1) (-1)
      [GenItem.ok ⟨"a", "q", []⟩, GenItem.ok ⟨"b", "q", []⟩] =
      .ok ({ poolSize := 1, byKey := [("b", 0), ("a", 0)], nextWorker := 0 },
           [(0, ⟨"a", "q", []⟩), (0, ⟨"b", "q", []⟩)], []) :=
  rfl

/-- C7: evaluation at the empty input.  The claim asks for a well-defined
result (zero stats or an explicit empty-input error) and no division by
zero; the code instead blocks forever in the main admission loop when the
source is exhausted before producing any item (no completion ever arrives
and context.Background is never cancelled), and calculateStats applied to
an empty duration list divides the total by its zero count, a runtime
panic, modelled by none. -/
theorem C7_empty_input_behavior :
    (RunTest (NewController 4) [] []).1 = RunOut.hangs ∧ calculateStats [] = none :=
  ⟨rfl, rfl⟩

/-- C8: the execution loop of worker.run invokes QueryContext, the
execute-returning-rows capability, on the statement and arguments of every
item it takes from its queue, and this call is distinct from ExecContext,
the execute-without-returning-rows capability that the claim (and the
tests of the repository, which set gomock expectations on ExecContext
only) require. -/
theorem C8_worker_uses_query_context :
    (∀ q : Query, workerDbCall q = DbCall.QueryContext q.query q.args) ∧
    workerDbCall ⟨"", "query", ["arg1", "arg2"]⟩ ≠
      DbCall.ExecContext "query" ["arg1", "arg2"] :=
  ⟨fun _ => rfl, by decide⟩

/-- C9: for every integer pool-size argument the constructed controller has
pool size at least 1, a positive argument is taken as is, initPool creates
exactly poolSize workers, and getWorker (the only controller operation that
rewrites the routing state during a run) never changes the pool size. -/
theorem C9_pool_size_invariant (n : Int) :
    1 ≤ (NewController n).poolSize ∧
    (0 < n → ((NewController n).poolSize : Int) = n) ∧
    (initPool (NewController n)).length = (NewController n).poolSize ∧
    (∀ (c : Controller) (q : Query), ((getWorker c q).2).poolSize = c.poolSize) := by
  refine ⟨?_, ?_, ?_, ?_⟩
  · simp only [NewController]
    split
    · exact le_refl 1
    · rename_i h
      omega
  · intro hn
    simp only [NewController]
    split
    · omega
    · simp [Int.toNat_of_nonneg (le_of_lt hn)]
  · simp [initPool]
  · intro c q
    unfold getWorker
    cases lookupKey c.byKey q.key <;> rfl

/-- Witness for C9 at the concrete argument 4: the positive argument is
taken as the pool size. -/
theorem C9_pool_size_invariant_witness : ((NewController 4).poolSize : Int) = 4 :=
  (C9_pool_size_invariant 4).2.1 (by decide)

theorem next_after_header (k : Nat) (r : List String) (rest : List (List String)) :
    cpuTestGenerator.Next ⟨⟨r :: rest, some k⟩, true⟩ =
      (if r.length = k then
        (if r.length ≠ 3 ∨ ¬ isValidDateTime (r.getD 1 "") ∨ ¬ isValidDateTime (r.getD 2 "")
          then .error (.invalidQuerySpec r)
          else .ok ({ key := r.getD 0 "", query := cpuTestQuery, args := r },
                    ⟨⟨rest, some k⟩, true⟩))
      else .error GenError.errFieldCount) := by
  by_cases hk : r.length = k
  · simp [cpuTestGenerator.Next, readHeader, csvReader.read, hk]
  · simp [cpuTestGenerator.Next, readHeader, csvReader.read, hk, liftReadErr]

theorem next_fresh (h : List String) (rest : List (List String)) :
    cpuTestGenerator.Next (NewCPUTestGenerator (h :: rest)) =
      cpuTestGenerator.Next ⟨⟨rest, some h.length⟩, true⟩ :=
  rfl

/-- C10 (amended): after the header has been read (which fixes the expected
csv field count), Next returns a non-EOF error for a data record exactly
when the record has a field count different from the header, or does not
have exactly 3 fields, or its second or third field is not a valid
2006-01-02 15:04:05 datetime — the first field is never validated, as the
condition does not mention it; the header itself is skipped without any
validation of its content, only its field count mattering for later reads;
and an input consisting of only a header yields io.EOF. -/
theorem C10_generator_validation :
    (∀ (h h2 : List String) (rest : List (List String)), h.length = h2.length →
      cpuTestGenerator.Next (NewCPUTestGenerator (h :: rest)) =
        cpuTestGenerator.Next (NewCPUTestGenerator (h2 :: rest))) ∧
    (∀ (k : Nat) (r : List String) (rest : List (List String)),
      (∃ e, cpuTestGenerator.Next ⟨⟨r :: rest, some k⟩, true⟩ = .error e ∧ e ≠ GenError.eof) ↔
        (r.length ≠ k ∨ r.length ≠ 3 ∨ ¬ isValidDateTime (r.getD 1 "")
          ∨ ¬ isValidDateTime (r.getD 2 ""))) ∧
    (∀ h : List String,
      cpuTestGenerator.Next (NewCPUTestGenerator [h]) = .error GenError.eof) := by
  refine ⟨?_, ?_, ?_⟩
  · intro h h2 rest hlen
    rw [next_fresh, next_fresh, hlen]
  · intro k r rest
    rw [next_after_header]
    by_cases hk : r.length = k
    · rw [if_pos hk]
      by_cases hval : r.length ≠ 3 ∨ ¬ isValidDateTime (r.getD 1 "")
          ∨ ¬ isValidDateTime (r.getD 2 "")
      · rw [if_pos hval]
        constructor
        · intro _
          right
          exact hval
        · intro _
          exact ⟨.invalidQuerySpec r, rfl, by simp⟩
      · rw [if_neg hval]
        constructor
        · rintro ⟨e, he, -⟩
          exact absurd he (by simp)
        · intro hcases
          rcases hcases with hcase | hcase
          · exact absurd hk hcase
          · exact absurd hcase hval
    · rw [if_neg hk]
      constructor
      · intro _
        left
        exact hk
      · intro _
        exact ⟨GenError.errFieldCount, rfl, by simp⟩
  · intro h
    rfl

/-- Witness for C10: two headers of equal field count but different content
lead Next to the same outcome, the header content being skipped without
validation. -/
theorem C10_generator_validation_witness :
    cpuTestGenerator.Next (NewCPUTestGenerator [["x", "y"], ["r1", "r2"]]) =
      cpuTestGenerator.Next (NewCPUTestGenerator [["u", "v"], ["r1", "r2"]]) :=
  C10_generator_validation.1 ["x", "y"] ["u", "v"] [["r1", "r2"]] rfl

/-- C10 counterexample to the claim as stated: with a two-field header, a
data record with exactly 3 fields whose second and third fields are valid
datetimes is still rejected with a non-EOF error (csv.ErrFieldCount), so
the claimed error condition (not exactly 3 fields, or an unparseable
second or third field) is not exact. -/
theorem C10_generator_counterexample :
    cpuTestGenerator.Next (NewCPUTestGenerator
        [["a", "b"], ["h1", "2017-01-01 08:59:22", "2017-01-01 09:59:22"]]) =
      .error GenError.errFieldCount ∧
    GenError.errFieldCount ≠ GenError.eof ∧
    (["h1", "2017-01-01 08:59:22", "2017-01-01 09:59:22"] : List String).length = 3 ∧
    isValidDateTime "2017-01-01 08:59:22" = true ∧
    isValidDateTime "2017-01-01 09:59:22" = true := by
  refine ⟨rfl, by simp, rfl, by decide, by decide⟩

theorem foldl_add_eq_sum (l : List Int) (init : Int) :
    l.foldl (fun acc v => acc + v) init = init + l.sum := by
  induction l generalizing init with
  | nil => simp
  | cons x rest ih =>
    simp only [List.foldl_cons, List.sum_cons, ih]
    ring

theorem foldl_min_spec (l : List Int) (M : Int) :
    l.foldl (fun acc v => if v < acc then v else acc) M ≤ M ∧
    (∀ v ∈ l, l.foldl (fun acc v => if v < acc then v else acc) M ≤ v) ∧
    (l.foldl (fun acc v => if v < acc then v else acc) M = M ∨
     l.foldl (fun acc v => if v < acc then v else acc) M ∈ l) := by
  induction l generalizing M with
  | nil => simp
  | cons x rest ih =>
    simp only [List.foldl_cons]
    obtain ⟨ih1, ih2, ih3⟩ := ih (if x < M then x else M)
    have hM2le : (if x < M then x else M) ≤ M := by split <;> omega
    have hM2x : (if x < M then x else M) ≤ x := by split <;> omega
    refine ⟨le_trans ih1 hM2le, ?_, ?_⟩
    · intro v hv
      rcases List.mem_cons.mp hv with rfl | hv2
      · exact le_trans ih1 hM2x
      · exact ih2 v hv2
    · rcases ih3 with heq | hmem
      · rw [heq]
        split
        · exact Or.inr (List.mem_cons_self _ _)
        · exact Or.inl rfl
      · exact Or.inr (List.mem_cons_of_mem x hmem)

theorem foldl_max_spec (l : List Int) (M : Int) :
    M ≤ l.foldl (fun acc v => if acc < v then v else acc) M ∧
    (∀ v ∈ l, v ≤ l.foldl (fun acc v => if acc < v then v else acc) M) ∧
    (l.foldl (fun acc v => if acc < v then v else acc) M = M ∨
     l.foldl (fun acc v => if acc < v then v else acc) M ∈ l) := by
  induction l generalizing M with
  | nil => simp
  | cons x rest ih =>
    simp only [List.foldl_cons]
    obtain ⟨ih1, ih2, ih3⟩ := ih (if M < x then x else M)
    have hM2le : M ≤ (if M < x then x else M) := by split <;> omega
    have hM2x : x ≤ (if M < x then x else M) := by split <;> omega
    refine ⟨le_trans hM2le ih1, ?_, ?_⟩
    · intro v hv
      rcases List.mem_cons.mp hv with rfl | hv2
      · exact le_trans hM2x ih1
      · exact ih2 v hv2
    · rcases ih3 with heq | hmem
      · rw [heq]
        split
        · exact Or.inr (List.mem_cons_self _ _)
        · exact Or.inl rfl
      · exact Or.inr (List.mem_cons_of_mem x hmem)

theorem calculateStats_spec (l sorted : List Int) (hne : l ≠ [])
    (hpos : ∀ v ∈ l, 0 ≤ v) (hbound : l.sum < 2 ^ 63)
    (hperm : sorted.Perm l) (hsort : List.Sorted (· ≤ ·) sorted) :
    ∃ s, calculateStats l = some s ∧
      s.Processed = (l.length : Int) ∧
      s.TotalElapsed = l.sum ∧
      s.Min ∈ l ∧ (∀ v ∈ l, s.Min ≤ v) ∧
      s.Max ∈ l ∧ (∀ v ∈ l, v ≤ s.Max) ∧
      s.Avg = Int.tdiv l.sum (l.length : Int) ∧
      (l.length % 2 = 1 → s.Median = sorted.getD (l.length / 2) 0) ∧
      (l.length % 2 = 0 →
        s.Median = Int.tdiv (sorted.getD (l.length / 2 - 1) 0 + sorted.getD (l.length / 2) 0) 2) := by
  have hS : List.insertionSort (fun a b => a ≤ b) l = sorted := by
    refine List.eq_of_perm_of_sorted ((List.perm_insertionSort _ l).trans hperm.symm) ?_ hsort
    exact List.sorted_insertionSort _ l
  have hlen : sorted.length = l.length := hperm.length_eq
  have hlpos : 0 < l.length := List.length_pos.mpr hne
  have hmemA : ∀ v : Int, v ∈ sorted ↔ v ∈ l := fun v => hperm.mem_iff
  have hub : ∀ v ∈ l, v ≤ maxInt64 := by
    intro v hv
    have h1 := List.single_le_sum hpos v hv
    simp only [maxInt64]
    linarith
  obtain ⟨mi1, mi2, mi3⟩ := foldl_min_spec sorted maxInt64
  obtain ⟨ma1, ma2, ma3⟩ := foldl_max_spec sorted minInt64
  have hsne : sorted ≠ [] := by
    intro h
    rw [h] at hlen
    simp only [List.length_nil] at hlen
    omega
  obtain ⟨v0, hv0⟩ := List.exists_mem_of_ne_nil sorted hsne
  have hMinMem : sorted.foldl (fun acc v => if v < acc then v else acc) maxInt64 ∈ l := by
    rcases mi3 with heq | hmem
    · have hv0le : v0 ≤ maxInt64 := hub v0 ((hmemA v0).mp hv0)
      have hv0eq : v0 = maxInt64 := le_antisymm hv0le (heq ▸ mi2 v0 hv0)
      rw [heq, ← hv0eq]
      exact (hmemA v0).mp hv0
    · exact (hmemA _).mp hmem
  have hMaxMem : sorted.foldl (fun acc v => if acc < v then v else acc) minInt64 ∈ l := by
    rcases ma3 with heq | hmem
    · exfalso
      have h1 := ma2 v0 hv0
      have h2 : 0 ≤ v0 := hpos v0 ((hmemA v0).mp hv0)
      rw [heq] at h1
      have h3 : (0 : Int) < 2 ^ 63 := by positivity
      simp only [minInt64] at h1
      linarith
    · exact (hmemA _).mp hmem
  have hsum : sorted.foldl (fun acc v => acc + v) 0 = l.sum := by
    rw [foldl_add_eq_sum, zero_add, hperm.sum_eq]
  simp only [calculateStats, hS, hlen]
  rw [if_neg (by omega)]
  refine ⟨_, rfl, ?_, ?_, ?_, ?_, ?_, ?_, ?_, ?_, ?_⟩
  · rfl
  · exact hsum
  · exact hMinMem
  · intro v hv
    exact mi2 v ((hmemA v).mpr hv)
  · exact hMaxMem
  · intro v hv
    exact ma2 v ((hmemA v).mpr hv)
  · rw [hsum]
  · intro hodd
    rw [if_neg (by omega)]
  · intro heven
    rw [if_pos heven]
    have i1 : (l.length - 1) / 2 = l.length / 2 - 1 := by omega
    have i2 : (l.length - 1) / 2 + 1 = l.length / 2 := by omega
    rw [i2, i1]

/-- C3 (amended): for every non-empty list of durations (nonnegative and
with an int64-representable sum, as durations measured by a run are),
calculateStats returns stats whose processed field is the count,
totalElapsed the sum, min and max the extremes, avg the truncating integer
division of the sum by the count, and median the element at index
floor(n/2) of the ascending-sorted list for odd n and the truncating
integer average of the elements at indices n/2 - 1 and n/2 for even n; in
particular the durations 3000ms, 1200ms, 900ms, 1350ms yield min 900ms,
max 3000ms, totalElapsed 6450ms, avg 1612.5ms (exactly 6450/4 ms, the
value the code and its own unit test produce, not the 1612ms of the
claim) and median 1275ms. -/
theorem C3_calculate_stats :
    (∀ l sorted : List Int, l ≠ [] → (∀ v ∈ l, 0 ≤ v) → l.sum < 2 ^ 63 →
      sorted.Perm l → List.Sorted (· ≤ ·) sorted →
      ∃ s, calculateStats l = some s ∧
        s.Processed = (l.length : Int) ∧
        s.TotalElapsed = l.sum ∧
        s.Min ∈ l ∧ (∀ v ∈ l, s.Min ≤ v) ∧
        s.Max ∈ l ∧ (∀ v ∈ l, v ≤ s.Max) ∧
        s.Avg = Int.tdiv l.sum (l.length : Int) ∧
        (l.length % 2 = 1 → s.Median = sorted.getD (l.length / 2) 0) ∧
        (l.length % 2 = 0 →
          s.Median = Int.tdiv (sorted.getD (l.length / 2 - 1) 0 + sorted.getD (l.length / 2) 0) 2)) ∧
    calculateStats [3000000000, 1200000000, 900000000, 1350000000] =
      some ⟨4, 6450000000, 900000000, 3000000000, 1612500000, 1275000000⟩ :=
  ⟨fun l sorted hne hpos hbound hperm hsort =>
    calculateStats_spec l sorted hne hpos hbound hperm hsort, rfl⟩

/-- Witness for C3 at the concrete list [2, 1] with its sorted permutation
[1, 2]. -/
theorem C3_calculate_stats_witness :
    ∃ s, calculateStats [2, 1] = some s ∧
      s.Processed = (([2, 1] : List Int).length : Int) ∧
      s.TotalElapsed = ([2, 1] : List Int).sum ∧
      s.Min ∈ ([2, 1] : List Int) ∧ (∀ v ∈ ([2, 1] : List Int), s.Min ≤ v) ∧
      s.Max ∈ ([2, 1] : List Int) ∧ (∀ v ∈ ([2, 1] : List Int), v ≤ s.Max) ∧
      s.Avg = Int.tdiv ([2, 1] : List Int).sum (([2, 1] : List Int).length : Int) ∧
      (([2, 1] : List Int).length % 2 = 1 →
        s.Median = ([1, 2] : List Int).getD (([2, 1] : List Int).length / 2) 0) ∧
      (([2, 1] : List Int).length % 2 = 0 →
        s.Median = Int.tdiv
          (([1, 2] : List Int).getD (([2, 1] : List Int).length / 2 - 1) 0 +
            ([1, 2] : List Int).getD (([2, 1] : List Int).length / 2) 0) 2) :=
  C3_calculate_stats.1 [2, 1] [1, 2] (by decide) (by decide) (by decide)
    (by decide) (by decide)

/-- C3 counterexample to the claim as stated: on 3000ms, 1200ms, 900ms,
1350ms the code computes avg = 1612.5ms (6450ms divided by 4 is exact in
nanoseconds), not the claimed 1612ms. -/
theorem C3_avg_counterexample :
    (calculateStats [3000000000, 1200000000, 900000000, 1350000000]).map QueryStats.Avg =
      some 1612500000 ∧ (1612500000 : Int) ≠ 1612000000 :=
  ⟨rfl, by decide⟩

theorem lookupKey_mem (m : List (String × Nat)) (k : String) (w : Nat)
    (h : lookupKey m k = some w) : (k, w) ∈ m := by
  induction m with
  | nil => simp [lookupKey] at h
  | cons p rest ih =>
    obtain ⟨k2, w2⟩ := p
    simp only [lookupKey] at h
    by_cases hk : k2 = k
    · rw [if_pos hk] at h
      injection h with h2
      subst hk
      subst h2
      exact List.mem_cons_self _ _
    · rw [if_neg hk] at h
      exact List.mem_cons_of_mem _ (ih h)

theorem getWorker_poolSize (c : Controller) (q : Query) :
    ((getWorker c q).2).poolSize = c.poolSize := by
  unfold getWorker
  cases lookupKey c.byKey q.key <;> rfl

theorem getWorker_WF (c : Controller) (q : Query) (hwf : c.WF) :
    ((getWorker c q).2).WF ∧ (getWorker c q).1 < c.poolSize := by
  obtain ⟨h1, h2, h3⟩ := hwf
  unfold getWorker
  cases hq : lookupKey c.byKey q.key with
  | some w =>
    exact ⟨⟨h1, h2, h3⟩, h3 (q.key, w) (lookupKey_mem _ _ _ hq)⟩
  | none =>
    refine ⟨⟨h1, Nat.mod_lt _ h1, ?_⟩, h2⟩
    intro p hp
    rcases List.mem_cons.mp hp with rfl | hp2
    · exact h2
    · exact h3 p hp2


theorem seedWorkers_ok (gen : List GenItem) (c : Controller) (seeded : Int)
    (c2 : Controller) (enq : List (Nat × Query)) (rem : List GenItem)
    (hwf : c.WF) (hs : seeded < (c.poolSize : Int))
    (h : seedWorkers c seeded gen = .ok (c2, enq, rem)) :
    rem = [] ∧ enq.length = gen.length ∧ c2.WF := by
  induction gen generalizing c seeded c2 enq rem with
  | nil =>
    simp only [seedWorkers, Except.ok.injEq, Prod.mk.injEq] at h
    obtain ⟨rfl, rfl, rfl⟩ := h
    exact ⟨rfl, rfl, hwf⟩
  | cons item rest ih =>
    cases item with
    | fail e =>
      simp only [seedWorkers] at h
      rw [if_pos hs] at h
      exact absurd h (by simp)
    | ok q =>
      simp only [seedWorkers] at h
      rw [if_pos hs] at h
      obtain ⟨hwf2, hlt⟩ := getWorker_WF c q hwf
      cases hrec : seedWorkers (getWorker c q).2
          (if ((getWorker c q).1 : Int) > seeded then ((getWorker c q).1 : Int) else seeded)
          rest with
      | error e =>
        rw [hrec] at h
        exact absurd h (by simp)
      | ok out =>
        obtain ⟨c3, enq2, rem2⟩ := out
        rw [hrec] at h
        simp only [Except.ok.injEq, Prod.mk.injEq] at h
        obtain ⟨rfl, rfl, rfl⟩ := h
        have hs2 : (if ((getWorker c q).1 : Int) > seeded then ((getWorker c q).1 : Int) else seeded)
            < (((getWorker c q).2).poolSize : Int) := by
          rw [getWorker_poolSize]
          split <;> omega
        obtain ⟨hr, hl, hw⟩ := ih (getWorker c q).2 _ c3 enq2 rem2 hwf2 hs2 hrec
        exact ⟨hr, by simp [hl], hw⟩

theorem noEnq_append_enqueues (enq : List (Nat × Query)) (t : List Event) :
    noEnqueueAfterFailure (enq.map (fun p => Event.enqueue p.1 p.2) ++ t) =
      noEnqueueAfterFailure t := by
  induction enq with
  | nil => rfl
  | cons p rest ih =>
    simp only [List.map_cons, List.cons_append, noEnqueueAfterFailure]
    exact ih

theorem noEnq_of_no_enqueues (t : List Event)
    (h : t.all (fun e => !(isEnqueueEvent e)) = true) :
    noEnqueueAfterFailure t = true := by
  induction t with
  | nil => rfl
  | cons e rest ih =>
    simp only [List.all_cons, Bool.and_eq_true] at h
    cases e with
    | enqueue w q => simp [isEnqueueEvent] at h
    | complete r =>
      cases hr : r.err with
      | some e2 =>
        simp only [noEnqueueAfterFailure, hr]
        exact h.2
      | none =>
        simp only [noEnqueueAfterFailure, hr]
        exact ih h.2

theorem drainTrace_no_enqueues (rs : List result) :
    (drainTrace rs).all (fun e => !(isEnqueueEvent e)) = true := by
  induction rs with
  | nil => rfl
  | cons r rest ih =>
    cases hr : r.err with
    | some e => simp [drainTrace, hr, isEnqueueEvent]
    | none =>
      simp only [drainTrace, hr, List.all_cons, isEnqueueEvent, Bool.not_false, Bool.true_and]
      exact ih

theorem drainOutcome_firstErr (rs : List result) (e : String)
    (h : firstErr rs = some e) : drainOutcome rs = .error e := by
  induction rs with
  | nil => simp [firstErr] at h
  | cons r rest ih =>
    simp only [firstErr] at h
    simp only [drainOutcome]
    cases hr : r.err with
    | some e2 =>
      rw [hr] at h
      injection h with h2
      rw [h2]
    | none =>
      rw [hr] at h
      rw [ih h]

theorem drainOutcome_all_ok (rs : List result) (h : ∀ r ∈ rs, r.err = none) :
    drainOutcome rs = .ok (rs.map result.elapsed) := by
  induction rs with
  | nil => rfl
  | cons r rest ih =>
    simp only [drainOutcome]
    rw [h r (List.mem_cons_self _ _), ih (fun r2 hr2 => h r2 (List.mem_cons_of_mem _ hr2))]
    rfl

theorem calculateStats_some (l : List Int) (hne : l ≠ []) :
    ∃ s, calculateStats l = some s ∧ s.Processed = (l.length : Int) := by
  simp only [calculateStats, List.length_insertionSort]
  rw [if_neg (by simpa using hne)]
  exact ⟨_, rfl, rfl⟩

/-- C4: for every run whose seeding succeeds, whenever the delivery
schedule carries an erroneous completion result — whether that result is
the one received in the main admission loop or one received during the
post-exhaustion drain — RunTest returns no statistics but the fails
outcome carrying the first such error, and the event trace of the run
never enqueues an item on any worker after an erroneous completion has
been received. -/
theorem C4_execution_failure_aborts (c : Controller) (gen : List GenItem)
    (delivered : List result) (e : String) (hwf : c.WF)
    (hseed : ∃ out, seedWorkers c (-1) gen = .ok out)
    (hfe : firstErr delivered = some e) :
    (RunTest c gen delivered).1 = RunOut.fails e ∧
    noEnqueueAfterFailure ((RunTest c gen delivered).2) = true := by
  obtain ⟨⟨c2, enq, rem⟩, hs⟩ := hseed
  have hneg : (-1 : Int) < (c.poolSize : Int) := by
    have h1 := hwf.1
    omega
  obtain ⟨hrem, hlen, hwf2⟩ := seedWorkers_ok gen c (-1) c2 enq rem hwf hneg hs
  subst hrem
  cases delivered with
  | nil => simp [firstErr] at hfe
  | cons r rest =>
    cases hr : r.err with
    | some e2 =>
      simp only [firstErr, hr] at hfe
      injection hfe with hfe2
      subst hfe2
      simp only [RunTest, hs, mainLoop, hr]
      refine ⟨by trivial, ?_⟩
      rw [noEnq_append_enqueues]
      simp only [noEnqueueAfterFailure, hr, List.all_nil]
    | none =>
      simp only [firstErr, hr] at hfe
      simp only [RunTest, hs, mainLoop, hr]
      rw [drainOutcome_firstErr rest e hfe]
      refine ⟨by trivial, ?_⟩
      rw [List.append_assoc, noEnq_append_enqueues]
      simp only [List.cons_append, List.nil_append, noEnqueueAfterFailure, hr]
      exact noEnq_of_no_enqueues _ (drainTrace_no_enqueues rest)

/-- Witness for C4 at a concrete run: two seeded items on a two-worker
pool, the first completion succeeds and the second carries an error that
is received in the drain. -/
theorem C4_execution_failure_aborts_witness :
    (RunTest (NewController 2) [GenItem.ok ⟨"a", "q", []⟩, GenItem.ok ⟨"b", "q", []⟩]
        [⟨5, none⟩, ⟨7, some "boom"⟩]).1 = RunOut.fails "boom" ∧
    noEnqueueAfterFailure ((RunTest (NewController 2)
        [GenItem.ok ⟨"a", "q", []⟩, GenItem.ok ⟨"b", "q", []⟩]
        [⟨5, none⟩, ⟨7, some "boom"⟩]).2) = true :=
  C4_execution_failure_aborts (NewController 2)
    [GenItem.ok ⟨"a", "q", []⟩, GenItem.ok ⟨"b", "q", []⟩]
    [⟨5, none⟩, ⟨7, some "boom"⟩] "boom" (by decide) ⟨_, rfl⟩ rfl

/-- C5: for every run that completes successfully — the seeding consumed
the source, every enqueued item yields exactly one completion result (the
delivery schedule is a permutation of a list execResults holding one
execution result per enqueued item; two enqueuings of equal queries may
well carry different elapsed times), none of the results carries an
error, and the source was not empty — RunTest returns statistics whose
Processed field equals the number of items the source produced. -/
theorem C5_processed_equals_source_count (c : Controller) (gen : List GenItem)
    (delivered : List result) (execResults : List result) (c2 : Controller)
    (enq : List (Nat × Query)) (rem : List GenItem) (hwf : c.WF)
    (hseed : seedWorkers c (-1) gen = .ok (c2, enq, rem))
    (hexec : execResults.length = enq.length)
    (hdel : delivered.Perm execResults)
    (hok : ∀ r ∈ delivered, r.err = none)
    (hne : gen ≠ []) :
    ∃ s, (RunTest c gen delivered).1 = RunOut.succeeds s ∧
      s.Processed = (gen.length : Int) := by
  have hneg : (-1 : Int) < (c.poolSize : Int) := by
    have h1 := hwf.1
    omega
  obtain ⟨hrem, hlen, hwf2⟩ := seedWorkers_ok gen c (-1) c2 enq rem hwf hneg hseed
  subst hrem
  have hdlen : delivered.length = gen.length := by
    rw [hdel.length_eq, hexec, hlen]
  cases delivered with
  | nil =>
    simp only [List.length_nil] at hdlen
    exact absurd (List.eq_nil_of_length_eq_zero hdlen.symm) hne
  | cons r rest =>
    have hr : r.err = none := hok r (List.mem_cons_self _ _)
    simp only [RunTest, hseed, mainLoop, hr]
    rw [drainOutcome_all_ok rest (fun r2 h2 => hok r2 (List.mem_cons_of_mem _ h2))]
    simp only [List.singleton_append]
    obtain ⟨s, hcs, hproc⟩ :=
      calculateStats_some (r.elapsed :: rest.map result.elapsed) (by simp)
    rw [hcs]
    refine ⟨s, rfl, ?_⟩
    rw [hproc]
    simp only [List.length_cons, List.length_map]
    simp only [List.length_cons] at hdlen
    omega

/-- Witness for C5 at a concrete successful run: the same query is
admitted twice (a duplicated source row) and its two completions carry
different elapsed times; Processed is 2, the number of items the source
produced. -/
theorem C5_processed_equals_source_count_witness :
    ∃ s, (RunTest (NewController 2) [GenItem.ok ⟨"a", "q", []⟩, GenItem.ok ⟨"a", "q", []⟩]
        [⟨3, none⟩, ⟨4, none⟩]).1 = RunOut.succeeds s ∧
      s.Processed =
        ((([GenItem.ok ⟨"a", "q", []⟩, GenItem.ok ⟨"a", "q", []⟩] : List GenItem)).length : Int) :=
  C5_processed_equals_source_count (NewController 2)
    [GenItem.ok ⟨"a", "q", []⟩, GenItem.ok ⟨"a", "q", []⟩] [⟨3, none⟩, ⟨4, none⟩]
    [⟨3, none⟩, ⟨4, none⟩] _ _ _
    (by decide) rfl (by decide) (by decide) (by decide) (by decide)
